import Mathlib

/-!
# Verification of the must-gather archive reader (`src/mustgather.rs`)

Shallow embedding of the root-discovery algorithm, the manifest-path
resolver and the archive summary builder.

Modelling conventions:
* A filesystem is an `Entry` tree: files carry `Option Yaml` content
  (`none` models a file whose manifest fails to load/parse), directories
  carry a list of named children in directory-enumeration order.
* A filesystem path is a `List String` of canonical segments; Rust
  `PathBuf::push` is modelled by `pushStr`, including its behaviour of
  replacing the whole path when pushed an absolute string and of
  splitting a pushed string on `/` into several components.
* `Path::canonicalize` is the identity here: model paths are already
  canonical (no symlinks, no `.`/`..` resolution is modelled).
* Rust panics (`unwrap` on a failed operation) are modelled as explicit
  `panicked` outcomes / `none` results, distinct from returned `Err`
  values.
-/

/-- YAML documents as the manifest loader exposes them: strings, maps, and
everything else collapsed to `other` (indexing into it yields `other`,
mirroring yaml-rust's `BadValue`). -/
inductive Yaml where
  | str (s : String)
  | map (kvs : List (String × Yaml))
  | other
deriving Repr

/-- Field indexing `y[k]`: lookup in a map, `other` (BadValue) on a missing
key or a non-map receiver. -/
def Yaml.idx : Yaml → String → Yaml
  | .map kvs, k =>
    match kvs.find? (fun kv => kv.1 == k) with
    | some kv => kv.2
    | none => .other
  | _, _ => .other

/-- `as_str()`: `some` exactly on string values. -/
def Yaml.asStr : Yaml → Option String
  | .str s => some s
  | _ => none

/-- A filesystem entry: a file (with loadable manifest content, or `none`
when loading it would fail) or a directory with named children. -/
inductive Entry where
  | file (content : Option Yaml)
  | dir (children : List (String × Entry))
deriving Repr

/-- A canonical filesystem path, as a list of segments. -/
abbrev FsPath := List String

/-- First child with the given name. -/
def lookupChild (cs : List (String × Entry)) (n : String) : Option Entry :=
  (cs.find? (fun c => c.1 == n)).map Prod.snd

/-- Whether an entry is a directory. -/
def Entry.isDirB : Entry → Bool
  | .dir _ => true
  | .file _ => false

/-- Walk a path down the tree. `none` when some segment is missing or
descends through a file. -/
def resolve : Entry → FsPath → Option Entry
  | e, [] => some e
  | .file _, _ :: _ => none
  | .dir cs, n :: rest =>
    match lookupChild cs n with
    | some e => resolve e rest
    | none => none

mutual
/-- Number of entries in the tree, used as recursion fuel for the root
finder. -/
def Entry.size : Entry → Nat
  | .file _ => 1
  | .dir cs => 1 + sizeChildren cs

/-- Total size of a child list. -/
def sizeChildren : List (String × Entry) → Nat
  | [] => 0
  | c :: rest => Entry.size c.2 + sizeChildren rest
end

/-- No duplicates in a list of names. -/
def nodupB : List String → Bool
  | [] => true
  | n :: rest => !(decide (n ∈ rest)) && nodupB rest

mutual
/-- Well-formed filesystem: within each directory, child names are
distinct, recursively. Real filesystems always satisfy this. -/
def Entry.wfB : Entry → Bool
  | .file _ => true
  | .dir cs => nodupB (cs.map Prod.fst) && wfChildren cs

/-- All children well-formed. -/
def wfChildren : List (String × Entry) → Bool
  | [] => true
  | c :: rest => c.2.wfB && wfChildren rest
end

/-! ## Paths and `PathBuf::push` -/

/-- Split a character list on a separator, keeping empty pieces. -/
def splitOnChar (sep : Char) : List Char → List (List Char)
  | [] => [[]]
  | c :: rest =>
    if c = sep then [] :: splitOnChar sep rest
    else
      match splitOnChar sep rest with
      | [] => [[c]]
      | seg :: segs => (c :: seg) :: segs

/-- The path components a pushed string contributes: split on `/`, with
empty components and `.` normalised away, exactly as `Path::components`
does. -/
def splitSegs (s : String) : List String :=
  ((splitOnChar '/' s.data).filter (fun l => l ≠ [] && l ≠ ['.'])).map List.asString

/-- Whether a pushed string is an absolute path. -/
def isAbsolute (s : String) : Bool :=
  match s.data with
  | c :: _ => c == '/'
  | [] => false

/-- `PathBuf::push`: an absolute argument replaces the whole path,
otherwise its components are appended. -/
def pushStr (p : FsPath) (s : String) : FsPath :=
  if isAbsolute s then splitSegs s else p ++ splitSegs s

/-- `build_manifest_path` from `src/mustgather.rs`: namespace selects the
cluster-scoped or namespaced branch, a non-empty group adds a segment,
kind is always pushed, a non-empty name adds `<name>.yaml`. -/
def build_manifest_path (path : FsPath) (name nspace kind group : String) : FsPath :=
  let p1 :=
    if nspace.isEmpty then pushStr path "cluster-scoped-resources"
    else pushStr (pushStr path "namespaces") nspace
  let p2 := if group.isEmpty then p1 else pushStr p1 group
  let p3 := pushStr p2 kind
  if name.isEmpty then p3 else pushStr p3 (name ++ ".yaml")

/-! ## Root finder -/

/-- Outcome of `find_must_gather_root`: a returned `Ok(path)`, the single
returned error value (`anyhow!("Cannot determine root of must-gather")`),
or a panic from an `unwrap` (`fs::read_dir(..).unwrap()` on an unlistable
path, or `canonicalize().unwrap()`). -/
inductive Outcome where
  | ok (p : FsPath)
  | err
  | panicked
deriving Repr, DecidableEq

/-- The root invariant checked by `find_must_gather_root`: a `version`
file, or both a `namespaces` and a `cluster-scoped-resources` directory,
directly in the current directory. -/
def rootMarker (cs : List (String × Entry)) : Bool :=
  (match lookupChild cs "version" with
   | some (.file _) => true
   | _ => false)
  || ((match lookupChild cs "namespaces" with
       | some (.dir _) => true
       | _ => false)
      && (match lookupChild cs "cluster-scoped-resources" with
          | some (.dir _) => true
          | _ => false))

/-- The immediate subdirectories among a directory's entries, in
enumeration order (the `filter(|r| r.is_dir())` step). -/
def dirChildren (cs : List (String × Entry)) : List (String × Entry) :=
  cs.filter (fun c => c.2.isDirB)

/-- Fuelled body of `find_must_gather_root`, recursing on the current
entry. A file cannot satisfy the root invariant (no children), so
`read_dir` on it panics. A directory is returned when the root invariant
holds; otherwise the search descends into a unique subdirectory, and
errs when there are zero or several. `none` means the fuel ran out
(shown unreachable for fuel ≥ `Entry.size`). -/
def findRootF : Nat → Entry → FsPath → Option Outcome
  | _, .file _, _ => some .panicked
  | 0, .dir _, _ => none
  | fuel + 1, .dir cs, p =>
    if rootMarker cs then some (.ok p)
    else
      match dirChildren cs with
      | [c] => findRootF fuel c.2 (p ++ [c.1])
      | _ => some .err

/-- `find_must_gather_root` from `src/mustgather.rs`, over a filesystem
`fs` and a starting path `p`. A start path that does not resolve cannot
satisfy the root invariant and `read_dir` on it panics. Canonicalisation
is the identity on model paths. -/
def find_must_gather_root (fs : Entry) (p : FsPath) : Outcome :=
  match resolve fs p with
  | none => .panicked
  | some e => (findRootF e.size e p).getD .panicked

/-! ## Manifest loading, version and nodes -/

/-- `Manifest::from`: loads and parses the file at a path; `none` models
the `Err` cases (missing path, path is a directory, unparsable content). -/
def Manifest.fromPath (fs : Entry) (p : FsPath) : Option Yaml :=
  match resolve fs p with
  | some (.file (some y)) => some y
  | _ => none

/-- `get_cluster_version` from `src/mustgather.rs`: loads
`<root>/cluster-scoped-resources/config.openshift.io/clusterversions/version.yaml`
and extracts `status.desired.version`, returning "Unknown" on any
failure. -/
def get_cluster_version (fs : Entry) (path : FsPath) : String :=
  let manifestpath :=
    pushStr (build_manifest_path path "" "" "clusterversions" "config.openshift.io")
      "version.yaml"
  match Manifest.fromPath fs manifestpath with
  | none => "Unknown"
  | some version =>
    match (((version.idx "status").idx "desired").idx "version").asStr with
    | some v => v
    | none => "Unknown"

/-- The `Node` entity (external collaborator, consumed only): a pure
decode of a manifest document. -/
structure Node where
  manifest : Yaml
deriving Repr

/-- `Node::from(manifest)`, a pure decode with no I/O. -/
def Node.fromManifest (m : Yaml) : Node := ⟨m⟩

/-- Rust `Path::extension` of a file name: the part after the last dot,
except that a name with no dot, or whose only dot is leading, has none. -/
def extOf (s : String) : Option String :=
  match splitOnChar '.' s.data with
  | [] => none
  | [_] => none
  | [[], _] => none
  | parts => (parts.getLast?).map List.asString

/-- `get_nodes` from `src/mustgather.rs`. Panics (`none`) when the nodes
collection directory cannot be listed, or when some entry in it has no
file-name extension (`m.extension().unwrap()`). Otherwise each entry
whose extension is `yaml` is loaded through `Manifest::from` by its full
path; entries that fail to load are skipped. -/
def get_nodes (fs : Entry) (path : FsPath) : Option (List Node) :=
  let manifestpath := build_manifest_path path "" "" "nodes" "core"
  match resolve fs manifestpath with
  | some (.dir cs) =>
    if cs.all (fun c => (extOf c.1).isSome) then
      let yamlfiles :=
        (cs.filter (fun c => extOf c.1 == some "yaml")).map
          (fun c => manifestpath ++ [c.1])
      some (yamlfiles.filterMap (fun fp =>
        match Manifest.fromPath fs fp with
        | some m => some (Node.fromManifest m)
        | none => none))
    else none
  | _ => none

/-- The archive summary. -/
structure MustGather where
  title : String
  version : String
  nodes : List Node
deriving Repr

/-- Outcome of `MustGather::from`: a summary, the propagated root-finder
`Err`, or a panic. -/
inductive BuildOutcome where
  | ok (m : MustGather)
  | err
  | panicked
deriving Repr

/-- `MustGather::from` from `src/mustgather.rs`: find the root
(propagating its error / panic), derive the title from the root's final
segment (`file_name().unwrap()` panics when there is none), then version
and nodes. -/
def MustGather.fromPath (fs : Entry) (path : FsPath) : BuildOutcome :=
  match find_must_gather_root fs path with
  | .panicked => .panicked
  | .err => .err
  | .ok r =>
    match r.getLast? with
    | none => .panicked
    | some title =>
      match get_nodes fs r with
      | none => .panicked
      | some nodes => .ok ⟨title, get_cluster_version fs r, nodes⟩

/-! ## The spec's manifest-path form

For the refinement comparison only: the path exactly as §8 of the spec
writes it, each locator field contributing the written segment. -/

/-- The spec's claimed path form:
`<root>/cluster-scoped-resources/[<group>/]<kind>[/<name>.yaml]` when
namespace is empty, `<root>/namespaces/<namespace>/[<group>/]<kind>[/<name>.yaml]`
otherwise, the group segment present exactly when group is non-empty and
the `<name>.yaml` segment exactly when name is non-empty. -/
def specManifestPath (root : FsPath) (name nspace kind group : String) : FsPath :=
  (if nspace.isEmpty then root ++ ["cluster-scoped-resources"]
   else root ++ ["namespaces", nspace])
  ++ (if group.isEmpty then [] else [group])
  ++ [kind]
  ++ (if name.isEmpty then [] else [name ++ ".yaml"])

/-! ## Path lemmas -/

/-- A string with no path separator in it. -/
abbrev noSlash (s : String) : Prop := '/' ∉ s.data

/-- A plain relative single path segment: no separator, non-empty, and
not the `.` component that `Path::components` normalises away. -/
abbrev plainSeg (s : String) : Prop := '/' ∉ s.data ∧ s.data ≠ [] ∧ s.data ≠ ['.']

theorem dataAsString (s : String) : s.data.asString = s := by
  cases s
  rfl

theorem splitOnChar_of_not_mem {sep : Char} :
    ∀ {l : List Char}, sep ∉ l → splitOnChar sep l = [l]
  | [], _ => rfl
  | c :: rest, h => by
    have h1 : ¬c = sep := fun he => h (he ▸ List.mem_cons_self c rest)
    have h2 : sep ∉ rest := fun hm => h (List.mem_cons_of_mem c hm)
    simp [splitOnChar, h1, splitOnChar_of_not_mem h2]

theorem splitSegs_plain {s : String} (h : plainSeg s) : splitSegs s = [s] := by
  obtain ⟨h1, h2, h3⟩ := h
  unfold splitSegs
  rw [splitOnChar_of_not_mem h1]
  simp [List.filter, h2, h3, dataAsString]

theorem isAbsolute_eq_false_of_noSlash {s : String} (h : noSlash s) :
    isAbsolute s = false := by
  unfold isAbsolute
  cases hd : s.data with
  | nil => rfl
  | cons c rest =>
    have hc : ¬c = '/' := by
      intro he
      exact h (hd ▸ (he ▸ List.mem_cons_self c rest))
    simp [hc]

theorem pushStr_plain {s : String} (p : FsPath) (h : plainSeg s) :
    pushStr p s = p ++ [s] := by
  unfold pushStr
  rw [isAbsolute_eq_false_of_noSlash h.1, splitSegs_plain h]
  simp

theorem pushStr_prefixed {s : String} (p : FsPath) (h : isAbsolute s = false) :
    p <+: pushStr p s := by
  unfold pushStr
  rw [h]
  simp

theorem plainSeg_yamlName {s : String} (h1 : noSlash s) : plainSeg (s ++ ".yaml") := by
  refine ⟨?_, ?_, ?_⟩ <;> rw [String.data_append]
  · intro hm
    rcases List.mem_append.mp hm with h | h
    · exact h1 h
    · revert h
      decide
  · simp
  · intro he
    have hlen := congrArg List.length he
    simp at hlen

theorem isEmpty_false_of_plainSeg {s : String} (h : plainSeg s) :
    s.isEmpty = false := by
  rw [Bool.eq_false_iff]
  intro he
  have hs : s = "" := (String.isEmpty_iff s).mp he
  exact h.2.1 (by rw [hs])

/-! ## Root finder lemmas -/

theorem size_pos (e : Entry) : 1 ≤ e.size := by
  cases e <;> simp [Entry.size]

theorem size_child_le {cs : List (String × Entry)} {c : String × Entry} (h : c ∈ cs) :
    c.2.size ≤ sizeChildren cs := by
  induction cs with
  | nil => cases h
  | cons hd tl ih =>
    rcases List.mem_cons.mp h with h | h
    · subst h
      simp [sizeChildren]
    · have := ih h
      simp only [sizeChildren]
      omega

theorem dirChildren_singleton_mem {cs : List (String × Entry)} {c : String × Entry}
    (h : dirChildren cs = [c]) : c ∈ cs :=
  List.mem_of_mem_filter (p := fun c => c.2.isDirB) (by rw [dirChildren] at h; rw [h]; exact List.mem_singleton_self c)

theorem findRootF_mono : ∀ {f₁ f₂ : Nat} {e : Entry} {p : FsPath} {o : Outcome},
    f₁ ≤ f₂ → findRootF f₁ e p = some o → findRootF f₂ e p = some o := by
  intro f₁
  induction f₁ with
  | zero =>
    intro f₂ e p o _ h0
    cases e with
    | file c => cases f₂ <;> simpa [findRootF] using h0
    | dir cs => simp [findRootF] at h0
  | succ f ih =>
    intro f₂ e p o hle h0
    cases e with
    | file c => cases f₂ <;> simpa [findRootF] using h0
    | dir cs =>
      obtain ⟨f₂', rfl⟩ : ∃ k, f₂ = k + 1 := ⟨f₂ - 1, by omega⟩
      simp only [findRootF] at h0 ⊢
      by_cases hm : rootMarker cs = true
      · rw [if_pos hm] at h0 ⊢
        exact h0
      · rw [if_neg hm] at h0 ⊢
        cases hd : dirChildren cs with
        | nil =>
          rw [hd] at h0
          exact h0
        | cons c rest =>
          cases rest with
          | nil =>
            rw [hd] at h0
            exact ih (by omega) h0
          | cons c2 rest2 =>
            rw [hd] at h0
            exact h0

theorem findRootF_isSome : ∀ {f : Nat} {e : Entry} {p : FsPath}, e.size ≤ f →
    (findRootF f e p).isSome := by
  intro f
  induction f with
  | zero =>
    intro e p h
    have := size_pos e
    omega
  | succ f ih =>
    intro e p h
    cases e with
    | file c => simp [findRootF]
    | dir cs =>
      simp only [findRootF]
      by_cases hm : rootMarker cs = true
      · simp [hm]
      · rw [if_neg hm]
        cases hd : dirChildren cs with
        | nil => simp
        | cons c rest =>
          cases rest with
          | nil =>
            have hc : c ∈ cs := dirChildren_singleton_mem hd
            have hsz : Entry.size (Entry.dir cs) = 1 + sizeChildren cs := by
              simp [Entry.size]
            exact ih (by have := size_child_le hc; omega)
          | cons c2 rest2 => simp

theorem findRootF_fuel_irrel {f₁ f₂ : Nat} {e : Entry} {p : FsPath}
    (h₁ : e.size ≤ f₁) (h₂ : e.size ≤ f₂) :
    findRootF f₁ e p = findRootF f₂ e p := by
  obtain ⟨o, ho⟩ := Option.isSome_iff_exists.mp (findRootF_isSome h₁)
  obtain ⟨o', ho'⟩ := Option.isSome_iff_exists.mp (findRootF_isSome h₂)
  have h1 := findRootF_mono (Nat.le_max_left f₁ f₂) ho
  have h2 := findRootF_mono (Nat.le_max_right f₁ f₂) ho'
  rw [h1] at h2
  injection h2 with h3
  rw [ho, ho', h3]

/-! ## Well-formedness lemmas -/

theorem wfChildren_mem : ∀ {cs : List (String × Entry)} {c : String × Entry},
    wfChildren cs = true → c ∈ cs → c.2.wfB = true := by
  intro cs
  induction cs with
  | nil =>
    intro c _ h
    cases h
  | cons hd tl ih =>
    intro c hwf hm
    simp only [wfChildren, Bool.and_eq_true] at hwf
    rcases List.mem_cons.mp hm with h | h
    · subst h
      exact hwf.1
    · exact ih hwf.2 h

theorem nodupB_lookup : ∀ {cs : List (String × Entry)} {c : String × Entry},
    nodupB (cs.map Prod.fst) = true → c ∈ cs → lookupChild cs c.1 = some c.2 := by
  intro cs
  induction cs with
  | nil =>
    intro c _ h
    cases h
  | cons hd tl ih =>
    intro c hnd hm
    simp only [List.map_cons, nodupB, Bool.and_eq_true, Bool.not_eq_true'] at hnd
    rcases List.mem_cons.mp hm with h | h
    · subst h
      simp [lookupChild, List.find?]
    · have hne : (hd.1 == c.1) = false := by
        rw [beq_eq_false_iff_ne]
        intro he
        have hmem : hd.1 ∈ tl.map Prod.fst := he ▸ List.mem_map_of_mem Prod.fst h
        exact absurd hmem (of_decide_eq_false hnd.1)
      have hstep : lookupChild (hd :: tl) c.1 = lookupChild tl c.1 := by
        simp [lookupChild, List.find?, hne]
      rw [hstep]
      exact ih hnd.2 h

theorem wfB_resolve : ∀ {p : FsPath} {fs e : Entry}, fs.wfB = true →
    resolve fs p = some e → e.wfB = true := by
  intro p
  induction p with
  | nil =>
    intro fs e hwf h
    simp only [resolve] at h
    cases h
    exact hwf
  | cons n rest ih =>
    intro fs e hwf h
    cases fs with
    | file c => simp [resolve] at h
    | dir cs =>
      simp only [resolve] at h
      cases hl : lookupChild cs n with
      | none =>
        rw [hl] at h
        cases h
      | some e' =>
        rw [hl] at h
        have hmem : ∃ cp ∈ cs, cp.2 = e' := by
          unfold lookupChild at hl
          cases hf : cs.find? (fun c => c.1 == n) with
          | none =>
            rw [hf] at hl
            cases hl
          | some cp =>
            rw [hf] at hl
            exact ⟨cp, List.mem_of_find?_eq_some hf, Option.some.inj hl⟩
        obtain ⟨cp, hcm, hce⟩ := hmem
        have hwf' : e'.wfB = true := by
          simp only [Entry.wfB, Bool.and_eq_true] at hwf
          have := wfChildren_mem hwf.2 hcm
          rwa [hce] at this
        exact ih hwf' h

theorem resolve_append : ∀ {p : FsPath} {q : FsPath} {fs : Entry},
    resolve fs (p ++ q) = (resolve fs p).bind (fun e => resolve e q) := by
  intro p
  induction p with
  | nil =>
    intro q fs
    cases fs <;> rfl
  | cons n rest ih =>
    intro q fs
    cases fs with
    | file c => rfl
    | dir cs =>
      simp only [List.cons_append, resolve]
      cases hl : lookupChild cs n with
      | none => rfl
      | some e => exact ih

theorem resolve_child {fs : Entry} {p : FsPath} {cs : List (String × Entry)}
    {c : String × Entry} (hwf : fs.wfB = true)
    (hres : resolve fs p = some (.dir cs)) (hc : c ∈ cs) :
    resolve fs (p ++ [c.1]) = some c.2 := by
  rw [resolve_append, hres]
  have hwf' := wfB_resolve hwf hres
  simp only [Entry.wfB, Bool.and_eq_true] at hwf'
  show resolve (.dir cs) [c.1] = some c.2
  simp only [resolve]
  rw [nodupB_lookup hwf'.1 hc]

/-! ## Behaviour of the root finder at a marker directory -/

theorem size_dir_succ (cs : List (String × Entry)) :
    Entry.size (Entry.dir cs) = sizeChildren cs + 1 := by
  simp [Entry.size]
  omega

theorem find_root_at_marker {fs : Entry} {p : FsPath} {cs : List (String × Entry)}
    (hres : resolve fs p = some (.dir cs)) (hm : rootMarker cs = true) :
    find_must_gather_root fs p = .ok p := by
  unfold find_must_gather_root
  rw [hres]
  show (findRootF (Entry.size (Entry.dir cs)) (Entry.dir cs) p).getD Outcome.panicked
    = Outcome.ok p
  rw [size_dir_succ]
  simp only [findRootF, if_pos hm, Option.getD_some]

theorem findRootF_ok_marker {fs : Entry} (hwf : fs.wfB = true) :
    ∀ {f : Nat} {e : Entry} {p r : FsPath}, resolve fs p = some e →
    findRootF f e p = some (.ok r) →
    ∃ cs, resolve fs r = some (.dir cs) ∧ rootMarker cs = true := by
  intro f
  induction f with
  | zero =>
    intro e p r hres h0
    cases e with
    | file c => simp [findRootF] at h0
    | dir cs => simp [findRootF] at h0
  | succ f ih =>
    intro e p r hres h0
    cases e with
    | file c => simp [findRootF] at h0
    | dir cs =>
      simp only [findRootF] at h0
      by_cases hm : rootMarker cs = true
      · rw [if_pos hm] at h0
        have hpr : p = r := by
          injection h0 with h1
          injection h1
        exact ⟨cs, hpr ▸ hres, hm⟩
      · rw [if_neg hm] at h0
        cases hd : dirChildren cs with
        | nil =>
          rw [hd] at h0
          exact Outcome.noConfusion (Option.some.inj h0)
        | cons c rest =>
          cases rest with
          | nil =>
            rw [hd] at h0
            have hc : c ∈ cs := dirChildren_singleton_mem hd
            exact ih (resolve_child hwf hres hc) h0
          | cons c2 rest2 =>
            rw [hd] at h0
            exact Outcome.noConfusion (Option.some.inj h0)

/-! ## Claims C3 and C9: the path resolver -/

/-- C3 (counterexample): as stated, the claim quantifies over every
locator, but a name beginning with a path separator makes the pushed
`<name>.yaml` string absolute, and `PathBuf::push` then replaces the
whole path instead of appending, so the resolved path is not of the
claimed form at this input. -/
theorem C3_counterexample_absolute_name :
    build_manifest_path ["root"] "/evil" "" "nodes" "core"
      ≠ specManifestPath ["root"] "/evil" "" "nodes" "core" := by decide

/-- C3 (amended): for every root path and locator whose fields are plain
relative single segments where non-empty (kind non-empty), the resolved
path has exactly the claimed form: the cluster-scoped or namespaced
branch selected by the namespace, the group segment present exactly when
group is non-empty, and the `<name>.yaml` file segment present exactly
when name is non-empty. -/
theorem C3_path_form_for_plain_segments (root : FsPath) (name nspace kind group : String)
    (hk : plainSeg kind)
    (hns : nspace = "" ∨ plainSeg nspace)
    (hg : group = "" ∨ plainSeg group)
    (hn : name = "" ∨ noSlash name) :
    build_manifest_path root name nspace kind group
      = specManifestPath root name nspace kind group := by
  have e1 : (if nspace.isEmpty then pushStr root "cluster-scoped-resources"
      else pushStr (pushStr root "namespaces") nspace)
      = ((if nspace.isEmpty then root ++ ["cluster-scoped-resources"]
      else root ++ ["namespaces", nspace]) : FsPath) := by
    split
    · exact pushStr_plain root (by decide)
    · next hne =>
      rcases hns with h | h
      · exact absurd (by rw [h]; decide : nspace.isEmpty = true) hne
      · rw [pushStr_plain root (by decide), pushStr_plain _ h, List.append_assoc]
        rfl
  have e2 : ∀ p : FsPath, (if group.isEmpty then p else pushStr p group)
      = p ++ (if group.isEmpty then [] else [group]) := by
    intro p
    split
    · simp
    · next hne =>
      rcases hg with h | h
      · exact absurd (by rw [h]; decide : group.isEmpty = true) hne
      · exact pushStr_plain p h
  have e4 : ∀ p : FsPath, (if name.isEmpty then p else pushStr p (name ++ ".yaml"))
      = p ++ (if name.isEmpty then [] else [name ++ ".yaml"]) := by
    intro p
    split
    · simp
    · next hne =>
      rcases hn with h | h
      · exact absurd (by rw [h]; decide : name.isEmpty = true) hne
      · exact pushStr_plain p (plainSeg_yamlName h)
  unfold build_manifest_path specManifestPath
  dsimp only
  rw [e1, e2, pushStr_plain _ hk, e4]


/-- C3 (witness): the amended form at a concrete namespaced locator. -/
theorem C3_path_form_witness :
    build_manifest_path ["root"] "machine1" "openshift-machine-api" "machines" "machine.openshift.io"
      = specManifestPath ["root"] "machine1" "openshift-machine-api" "machines" "machine.openshift.io" :=
  C3_path_form_for_plain_segments ["root"] "machine1" "openshift-machine-api" "machines"
    "machine.openshift.io" (by decide) (Or.inr (by decide)) (Or.inr (by decide))
    (Or.inr (by decide))

/-- C9: when every locator field is free of path separators, none of the
pushes is absolute, so the resolved path always keeps the archive root as
a prefix: no locator field can make it escape the root. -/
theorem prefix_pushStr_trans {p q : FsPath} {s : String} (h : p <+: q) (hs : noSlash s) :
    p <+: pushStr q s :=
  h.trans (pushStr_prefixed q (isAbsolute_eq_false_of_noSlash hs))

theorem prefix_ite {p a b : FsPath} (c : Prop) [Decidable c] (ha : p <+: a) (hb : p <+: b) :
    p <+: if c then a else b := by
  split
  · exact ha
  · exact hb

theorem C9_manifest_path_stays_under_root (root : FsPath) (name nspace kind group : String)
    (hn : noSlash name) (hns : noSlash nspace) (hk : noSlash kind) (hg : noSlash group) :
    root <+: build_manifest_path root name nspace kind group := by
  have hny : noSlash (name ++ ".yaml") := (plainSeg_yamlName hn).1
  unfold build_manifest_path
  dsimp only
  have h1 : root <+: (if nspace.isEmpty then pushStr root "cluster-scoped-resources"
      else pushStr (pushStr root "namespaces") nspace) :=
    prefix_ite _ (prefix_pushStr_trans (List.prefix_refl root) (by decide))
      (prefix_pushStr_trans (prefix_pushStr_trans (List.prefix_refl root) (by decide)) hns)
  have h2 : root <+: (if group.isEmpty
      then (if nspace.isEmpty then pushStr root "cluster-scoped-resources"
        else pushStr (pushStr root "namespaces") nspace)
      else pushStr (if nspace.isEmpty then pushStr root "cluster-scoped-resources"
        else pushStr (pushStr root "namespaces") nspace) group) :=
    prefix_ite _ h1 (prefix_pushStr_trans h1 hg)
  have h3 := prefix_pushStr_trans h2 hk
  exact prefix_ite _ h3 (prefix_pushStr_trans h3 hny)

/-- C9 (witness): the prefix property at a concrete locator. -/
theorem C9_witness :
    ["root"] <+: build_manifest_path ["root"] "m1" "ns1" "machines" "grp" :=
  C9_manifest_path_stays_under_root ["root"] "m1" "ns1" "machines" "grp"
    (by decide) (by decide) (by decide) (by decide)

/-! ## Claims C2, C4, C5, C6: the root finder -/

/-- C4: a directory that directly contains a `version` file, or both a
`namespaces` and a `cluster-scoped-resources` directory, is returned by
the root finder itself (canonicalisation is the identity on model
paths), without descending further. -/
theorem C4_marker_dir_returned_itself (fs : Entry) (p : FsPath)
    (cs : List (String × Entry))
    (hres : resolve fs p = some (.dir cs)) (hm : rootMarker cs = true) :
    find_must_gather_root fs p = .ok p :=
  find_root_at_marker hres hm

/-- C4 (witness): a directory carrying the sibling-directories marker is
returned as the root directly. -/
theorem C4_witness :
    find_must_gather_root
      (Entry.dir [("namespaces", Entry.dir []),
                  ("cluster-scoped-resources", Entry.dir [("inner", Entry.dir [])])]) []
      = Outcome.ok [] :=
  C4_marker_dir_returned_itself _ []
    [("namespaces", Entry.dir []),
     ("cluster-scoped-resources", Entry.dir [("inner", Entry.dir [])])]
    rfl (by decide)

/-- C5: at a readable directory that does not satisfy the root invariant,
the root finder returns the root-not-determinable error when the number
of immediate subdirectories is not exactly one, and with exactly one
subdirectory it recurses into that subdirectory. -/
theorem C5_ambiguous_errs_unique_descends (fs : Entry) (p : FsPath)
    (cs : List (String × Entry)) (hwf : fs.wfB = true)
    (hres : resolve fs p = some (.dir cs)) (hm : rootMarker cs = false) :
    ((dirChildren cs).length ≠ 1 → find_must_gather_root fs p = .err)
    ∧ ∀ c, dirChildren cs = [c] →
        find_must_gather_root fs p = find_must_gather_root fs (p ++ [c.1]) := by
  have hm' : ¬rootMarker cs = true := by simp [hm]
  constructor
  · intro hlen
    unfold find_must_gather_root
    rw [hres]
    show (findRootF (Entry.size (Entry.dir cs)) (Entry.dir cs) p).getD Outcome.panicked
      = Outcome.err
    rw [size_dir_succ]
    simp only [findRootF, if_neg hm']
    cases hd : dirChildren cs with
    | nil => rfl
    | cons c rest =>
      cases rest with
      | nil => exact absurd (by rw [hd]; rfl) hlen
      | cons c2 rest2 => rfl
  · intro c hd
    have hc : c ∈ cs := dirChildren_singleton_mem hd
    have hres2 : resolve fs (p ++ [c.1]) = some c.2 := resolve_child hwf hres hc
    unfold find_must_gather_root
    rw [hres, hres2]
    show (findRootF (Entry.size (Entry.dir cs)) (Entry.dir cs) p).getD Outcome.panicked
      = (findRootF (Entry.size c.2) c.2 (p ++ [c.1])).getD Outcome.panicked
    rw [size_dir_succ]
    simp only [findRootF, if_neg hm']
    rw [hd]
    show (findRootF (sizeChildren cs) c.2 (p ++ [c.1])).getD Outcome.panicked = _
    rw [findRootF_fuel_irrel (size_child_le hc) (le_refl c.2.size)]

/-- C5 (witness): a markerless directory with two subdirectories errs,
and a markerless directory with exactly one subdirectory descends into
it. -/
theorem C5_witness :
    find_must_gather_root (Entry.dir [("a", Entry.dir []), ("b", Entry.dir [])]) []
      = Outcome.err
    ∧ find_must_gather_root (Entry.dir [("only", Entry.dir [("version", Entry.file none)])]) []
      = find_must_gather_root (Entry.dir [("only", Entry.dir [("version", Entry.file none)])])
          ["only"] := by
  constructor
  · exact (C5_ambiguous_errs_unique_descends
      (Entry.dir [("a", Entry.dir []), ("b", Entry.dir [])]) []
      [("a", Entry.dir []), ("b", Entry.dir [])]
      (by decide) rfl (by decide)).1 (by decide)
  · exact (C5_ambiguous_errs_unique_descends
      (Entry.dir [("only", Entry.dir [("version", Entry.file none)])]) []
      [("only", Entry.dir [("version", Entry.file none)])]
      (by decide) rfl (by decide)).2 ("only", Entry.dir [("version", Entry.file none)]) rfl

/-- C6: the root finder is idempotent on a well-formed filesystem: if it
succeeds with root `r`, running it again on `r` succeeds with `r`
unchanged. -/
theorem C6_find_root_idempotent (fs : Entry) (p r : FsPath) (hwf : fs.wfB = true)
    (h : find_must_gather_root fs p = .ok r) :
    find_must_gather_root fs r = .ok r := by
  unfold find_must_gather_root at h
  cases hres : resolve fs p with
  | none =>
    rw [hres] at h
    exact Outcome.noConfusion h
  | some e =>
    rw [hres] at h
    have h' : (findRootF e.size e p).getD Outcome.panicked = Outcome.ok r := h
    cases hf : findRootF e.size e p with
    | none =>
      rw [hf] at h'
      exact Outcome.noConfusion h'
    | some o =>
      rw [hf] at h'
      have ho : o = .ok r := h'
      obtain ⟨cs, hres_r, hmark⟩ := findRootF_ok_marker hwf hres (ho ▸ hf)
      exact find_root_at_marker hres_r hmark

/-- C6 (witness): rerunning the root finder on the root it unwrapped from
one level of nesting returns the same root. -/
theorem C6_witness :
    find_must_gather_root (Entry.dir [("wrap", Entry.dir [("version", Entry.file none)])])
      ["wrap"] = Outcome.ok ["wrap"] :=
  C6_find_root_idempotent _ [] ["wrap"] (by decide) (by decide)

/-- C2 (counterexample): on a start path that exists but is a file, hence
cannot be listed as a directory, `find_must_gather_root` panics via
`fs::read_dir(..).unwrap()` instead of surfacing a returned error value;
the only returned error value the function has is the ambiguous-root
error, from which the panic is distinct. -/
theorem C2_counterexample_panic_not_returned_error :
    find_must_gather_root (Entry.dir [("afile", Entry.file none)]) ["afile"]
      = Outcome.panicked
    ∧ Outcome.panicked ≠ Outcome.err := by
  constructor
  · decide
  · decide

/-- C2 (amended): for every starting path that does not resolve to a
directory (nonexistent, or a plain file), the root finder fails fatally
with a panic — an `unwrap` abort distinct from the returned
ambiguous-root error — rather than with a returned error value. -/
theorem C2_unlistable_start_panics (fs : Entry) (p : FsPath)
    (h : ∀ cs, resolve fs p ≠ some (.dir cs)) :
    find_must_gather_root fs p = .panicked := by
  unfold find_must_gather_root
  cases hres : resolve fs p with
  | none => rfl
  | some e =>
    cases e with
    | file c => rfl
    | dir cs => exact absurd hres (h cs)

/-- C2 (witness): a nonexistent starting path panics. -/
theorem C2_witness :
    find_must_gather_root (Entry.dir []) ["nope"] = Outcome.panicked :=
  C2_unlistable_start_panics (Entry.dir []) ["nope"]
    (fun _ hcs => Option.noConfusion hcs)

/-! ## Claims C1, C7, C8, C10: the summary builder -/

/-- C7: version extraction is best-effort: whenever the version manifest
fails to load (absent, unparsable, or not a file), or the field path
`status -> desired -> version` does not hold a string, the sentinel
"Unknown" is returned and no error propagates; when the field is a
string, exactly that string is returned. -/
theorem C7_version_unknown_sentinel (fs : Entry) (root : FsPath) :
    (Manifest.fromPath fs
        (pushStr (build_manifest_path root "" "" "clusterversions" "config.openshift.io")
          "version.yaml") = none →
      get_cluster_version fs root = "Unknown")
    ∧ ∀ y, Manifest.fromPath fs
        (pushStr (build_manifest_path root "" "" "clusterversions" "config.openshift.io")
          "version.yaml") = some y →
      ((((y.idx "status").idx "desired").idx "version").asStr = none →
          get_cluster_version fs root = "Unknown")
      ∧ ∀ v, (((y.idx "status").idx "desired").idx "version").asStr = some v →
          get_cluster_version fs root = v := by
  unfold get_cluster_version
  dsimp only
  constructor
  · intro h
    rw [h]
  · intro y hy
    rw [hy]
    constructor
    · intro h
      show (match (((y.idx "status").idx "desired").idx "version").asStr with
        | some v => v
        | none => "Unknown") = "Unknown"
      rw [h]
    · intro v hv
      show (match (((y.idx "status").idx "desired").idx "version").asStr with
        | some v => v
        | none => "Unknown") = v
      rw [hv]

/-- C7 (witness): with the fixture manifest in place the exact version
string is extracted, and with it absent the sentinel is returned. -/
theorem C7_witness :
    get_cluster_version
      (Entry.dir [("cluster-scoped-resources", Entry.dir [("config.openshift.io", Entry.dir
        [("clusterversions", Entry.dir [("version.yaml", Entry.file (some (Yaml.map
          [("status", Yaml.map [("desired", Yaml.map
            [("version", Yaml.str "X.Y.Z-fake-test")])])])))])])])]) []
      = "X.Y.Z-fake-test"
    ∧ get_cluster_version (Entry.dir []) [] = "Unknown" := by
  constructor
  · exact ((C7_version_unknown_sentinel
      (Entry.dir [("cluster-scoped-resources", Entry.dir [("config.openshift.io", Entry.dir
        [("clusterversions", Entry.dir [("version.yaml", Entry.file (some (Yaml.map
          [("status", Yaml.map [("desired", Yaml.map
            [("version", Yaml.str "X.Y.Z-fake-test")])])])))])])])]) []).2
      (Yaml.map [("status", Yaml.map [("desired", Yaml.map
        [("version", Yaml.str "X.Y.Z-fake-test")])])]) rfl).2 "X.Y.Z-fake-test" rfl
  · exact (C7_version_unknown_sentinel (Entry.dir []) []).1 rfl

/-- C10: `get_nodes`'s extension filter unwraps `Path::extension`, so it
is only total when every entry in the nodes collection directory has an
extension: an entry without one (for instance a subdirectory with no dot
in its name) makes `get_nodes` panic instead of being skipped. -/
theorem C10_extensionless_entry_panics (fs : Entry) (root : FsPath)
    (cs : List (String × Entry))
    (hres : resolve fs (build_manifest_path root "" "" "nodes" "core") = some (.dir cs))
    (hx : ∃ c ∈ cs, extOf c.1 = none) :
    get_nodes fs root = none := by
  unfold get_nodes
  dsimp only
  rw [hres]
  show (if (cs.all fun c => (extOf c.1).isSome) = true then
      some (List.filterMap (fun fp =>
        match Manifest.fromPath fs fp with
        | some m => some (Node.fromManifest m)
        | none => none)
        (List.map (fun c => build_manifest_path root "" "" "nodes" "core" ++ [c.1])
          (List.filter (fun c => extOf c.1 == some "yaml") cs)))
    else none) = none
  rw [if_neg ?_]
  intro hall
  obtain ⟨c, hc, hnone⟩ := hx
  have hsome := List.all_eq_true.mp hall c hc
  rw [hnone] at hsome
  exact Bool.noConfusion hsome

/-- C10 (witness): a dot-free subdirectory among the node manifests makes
the scan panic, even though every sibling is a loadable manifest. -/
theorem C10_witness :
    get_nodes
      (Entry.dir [("cluster-scoped-resources", Entry.dir [("core", Entry.dir
        [("nodes", Entry.dir [("node0.yaml", Entry.file (some Yaml.other)),
                              ("subdir", Entry.dir [])])])])]) []
      = none :=
  C10_extensionless_entry_panics _ []
    [("node0.yaml", Entry.file (some Yaml.other)), ("subdir", Entry.dir [])]
    rfl ⟨("subdir", Entry.dir []),
      List.mem_cons_of_mem _ (List.mem_cons_self _ _), rfl⟩

/-- C8: when the nodes collection directory is listable and every entry
has an extension (so the scan does not panic), the scan returns exactly
one `Node` for each `.yaml` entry whose manifest loads, in directory
order; entries whose manifests fail to load — and `.yaml`-named
subdirectories — are silently skipped, never fatal. -/
theorem C8_corrupt_manifests_skipped (fs : Entry) (root : FsPath)
    (cs : List (String × Entry)) (hwf : fs.wfB = true)
    (hres : resolve fs (build_manifest_path root "" "" "nodes" "core") = some (.dir cs))
    (hext : ∀ c ∈ cs, (extOf c.1).isSome) :
    get_nodes fs root = some (cs.filterMap (fun c =>
      if extOf c.1 == some "yaml" then
        match c.2 with
        | .file (some y) => some (Node.fromManifest y)
        | _ => none
      else none)) := by
  unfold get_nodes
  dsimp only
  rw [hres]
  show (if (cs.all fun c => (extOf c.1).isSome) = true then
      some (List.filterMap (fun fp =>
        match Manifest.fromPath fs fp with
        | some m => some (Node.fromManifest m)
        | none => none)
        (List.map (fun c => build_manifest_path root "" "" "nodes" "core" ++ [c.1])
          (List.filter (fun c => extOf c.1 == some "yaml") cs)))
    else none) = _
  rw [if_pos (List.all_eq_true.mpr fun c hc => hext c hc)]
  congr 1
  rw [List.filterMap_map, List.filterMap_filter]
  apply List.filterMap_congr
  intro c hc
  by_cases hy : (extOf c.1 == some "yaml") = true
  · rw [if_pos hy, if_pos hy]
    have hres2 : resolve fs (build_manifest_path root "" "" "nodes" "core" ++ [c.1])
        = some c.2 := resolve_child hwf hres hc
    show (match Manifest.fromPath fs (build_manifest_path root "" "" "nodes" "core" ++ [c.1]) with
      | some m => some (Node.fromManifest m)
      | none => none) = _
    unfold Manifest.fromPath
    rw [hres2]
    cases c.2 with
    | file content => cases content <;> rfl
    | dir cs2 => rfl
  · rw [if_neg hy, if_neg hy]

/-- C8 (witness): one corrupt manifest between two valid ones is skipped
while both valid ones are decoded, and the scan does not abort. -/
theorem C8_witness :
    get_nodes
      (Entry.dir [("cluster-scoped-resources", Entry.dir [("core", Entry.dir
        [("nodes", Entry.dir [("a.yaml", Entry.file (some (Yaml.str "A"))),
                              ("corrupt.yaml", Entry.file none),
                              ("b.yaml", Entry.file (some (Yaml.str "B")))])])])]) []
      = some [Node.fromManifest (Yaml.str "A"), Node.fromManifest (Yaml.str "B")] := by
  rw [C8_corrupt_manifests_skipped
    (Entry.dir [("cluster-scoped-resources", Entry.dir [("core", Entry.dir
      [("nodes", Entry.dir [("a.yaml", Entry.file (some (Yaml.str "A"))),
                            ("corrupt.yaml", Entry.file none),
                            ("b.yaml", Entry.file (some (Yaml.str "B")))])])])]) []
    [("a.yaml", Entry.file (some (Yaml.str "A"))),
     ("corrupt.yaml", Entry.file none),
     ("b.yaml", Entry.file (some (Yaml.str "B")))]
    (by decide) rfl (by decide)]
  rfl

/-- C1 (counterexample): the root finder succeeds on this archive (a
`version` file marks the root), yet the summary build panics instead of
returning a summary, because the nodes collection directory
`cluster-scoped-resources/core/nodes` is missing and
`fs::read_dir(..).unwrap()` in `get_nodes` aborts. -/
theorem C1_counterexample_missing_nodes_dir :
    find_must_gather_root
      (Entry.dir [("mg", Entry.dir [("version", Entry.file (some Yaml.other))])]) []
      = Outcome.ok ["mg"]
    ∧ MustGather.fromPath
      (Entry.dir [("mg", Entry.dir [("version", Entry.file (some Yaml.other))])]) []
      = BuildOutcome.panicked := by
  constructor
  · decide
  · rfl

/-- C1 (amended): whenever the root finder succeeds with a root that has
a final segment whose nodes collection directory exists and contains
only entries bearing extensions, the summary build returns a summary —
in particular a missing or malformed version manifest never aborts the
build (no hypothesis about the version manifest is needed). -/
theorem C1_build_returns_summary (fs : Entry) (p r : FsPath)
    (cs : List (String × Entry))
    (hok : find_must_gather_root fs p = .ok r)
    (ht : r ≠ [])
    (hnodes : resolve fs (build_manifest_path r "" "" "nodes" "core") = some (.dir cs))
    (hext : ∀ c ∈ cs, (extOf c.1).isSome) :
    ∃ m, MustGather.fromPath fs p = .ok m := by
  obtain ⟨t, hts⟩ := Option.isSome_iff_exists.mp (List.getLast?_isSome.mpr ht)
  have hnse : get_nodes fs r = some (List.filterMap (fun fp =>
      match Manifest.fromPath fs fp with
      | some m => some (Node.fromManifest m)
      | none => none)
      (List.map (fun c => build_manifest_path r "" "" "nodes" "core" ++ [c.1])
        (List.filter (fun c => extOf c.1 == some "yaml") cs))) := by
    unfold get_nodes
    dsimp only
    rw [hnodes]
    show (if (cs.all fun c => (extOf c.1).isSome) = true then
        some (List.filterMap (fun fp =>
          match Manifest.fromPath fs fp with
          | some m => some (Node.fromManifest m)
          | none => none)
          (List.map (fun c => build_manifest_path r "" "" "nodes" "core" ++ [c.1])
            (List.filter (fun c => extOf c.1 == some "yaml") cs)))
      else none) = some _
    rw [if_pos (List.all_eq_true.mpr fun c hc => hext c hc)]
  unfold MustGather.fromPath
  rw [hok]
  simp only [hts, hnse]
  exact ⟨_, rfl⟩

/-- C1 (witness): with an empty — but present — nodes collection
directory and no version manifest at all, the build still returns a
summary. -/
theorem C1_witness :
    ∃ m, MustGather.fromPath
      (Entry.dir [("mg", Entry.dir [("version", Entry.file none),
        ("cluster-scoped-resources", Entry.dir [("core", Entry.dir
          [("nodes", Entry.dir [])])])])]) []
      = BuildOutcome.ok m :=
  C1_build_returns_summary _ [] ["mg"] []
    (by decide) (by decide) rfl (by intro c hc; cases hc)

section SanityChecks

example : Entry.size (Entry.dir [("a", Entry.file none), ("b", Entry.dir [])]) = 3 := by decide

example : Entry.wfB (Entry.dir [("a", Entry.file none), ("a", Entry.dir [])]) = false := by decide

example : resolve (Entry.dir [("a", Entry.dir [("b", Entry.file none)])]) ["a", "b"]
    = some (Entry.file none) := rfl

example : build_manifest_path ["foo"] "" "" "nodes" "core"
    = ["foo", "cluster-scoped-resources", "core", "nodes"] := by decide

example : build_manifest_path ["foo"] "node1" "" "nodes" "core"
    = ["foo", "cluster-scoped-resources", "core", "nodes", "node1.yaml"] := by decide

example : build_manifest_path ["foo"] "" "openshift-machine-api" "machines" "machine.openshift.io"
    = ["foo", "namespaces", "openshift-machine-api", "machine.openshift.io", "machines"] := by decide

example : build_manifest_path ["foo"] "machine1" "openshift-machine-api" "machines" "machine.openshift.io"
    = ["foo", "namespaces", "openshift-machine-api", "machine.openshift.io", "machines", "machine1.yaml"] := by decide

example : extOf "a.yaml" = some "yaml" := by decide
example : extOf "subdir" = none := by decide
example : extOf ".bashrc" = none := by decide
example : extOf "a.b.c" = some "c" := by decide

example :
    find_must_gather_root (Entry.dir [("mg", Entry.dir [("version", Entry.file none)])]) []
    = Outcome.ok ["mg"] := by decide

end SanityChecks
